/-
  Verification of the namemc-hash-api repository (Go).

  Shallow embedding of `src/main.go`: the fingerprint engine `computeHashes`,
  the request handler `handleHash` with its cache-key derivation and cache,
  `normalizeURL`, and the panic-recovery middleware.

  Bytes are modelled as `Nat` (values < 256 wherever the Go code produces
  them).  External Go library calls (`image.Decode`, `imaging.Encode`) are
  modelled as explicit function parameters; `crypto/sha256` and
  `encoding/hex` are implemented concretely (FIPS 180-4 SHA-256 and
  lowercase hex), so every hash in sight is the real one.
-/
import Mathlib

namespace NamemcHash

/-! ## Byte-level helpers (`encoding/binary` big-endian) -/

/-- `binary.BigEndian.PutUint32`: the four big-endian bytes of the `uint32`
value of `v` (taking `v` mod 2^32 is built into the byte extraction). -/
def putUint32BE (v : Nat) : List Nat :=
  [(v >>> 24) % 256, (v >>> 16) % 256, (v >>> 8) % 256, v % 256]

/-- The eight big-endian bytes of the `uint64` value of `v`; used for the
SHA-256 length field. -/
def putUint64BE (v : Nat) : List Nat :=
  [(v >>> 56) % 256, (v >>> 48) % 256, (v >>> 40) % 256, (v >>> 32) % 256,
   (v >>> 24) % 256, (v >>> 16) % 256, (v >>> 8) % 256, v % 256]

/-- `binary.BigEndian.Uint32` of the first four entries of a byte list. -/
def beWord32 (l : List Nat) : Nat :=
  (l.getD 0 0) <<< 24 ||| (l.getD 1 0) <<< 16 ||| (l.getD 2 0) <<< 8 ||| l.getD 3 0

/-! ## SHA-256 (models Go `crypto/sha256`, i.e. FIPS 180-4)

32-bit words are `Nat`s reduced mod `2 ^ 32` after every arithmetic step. -/

/-- Right rotation of a 32-bit word by `n` places. -/
def rotr32 (n x : Nat) : Nat := ((x >>> n) ||| (x <<< (32 - n))) % 2 ^ 32

/-- Bitwise complement of a 32-bit word. -/
def not32 (x : Nat) : Nat := x ^^^ (2 ^ 32 - 1)

/-- FIPS 180-4 `Ch`. -/
def ch32 (x y z : Nat) : Nat := (x &&& y) ^^^ (not32 x &&& z)

/-- FIPS 180-4 `Maj`. -/
def maj32 (x y z : Nat) : Nat := (x &&& y) ^^^ (x &&& z) ^^^ (y &&& z)

/-- FIPS 180-4 `Σ0`. -/
def bsig0 (x : Nat) : Nat := rotr32 2 x ^^^ rotr32 13 x ^^^ rotr32 22 x

/-- FIPS 180-4 `Σ1`. -/
def bsig1 (x : Nat) : Nat := rotr32 6 x ^^^ rotr32 11 x ^^^ rotr32 25 x

/-- FIPS 180-4 `σ0`. -/
def ssig0 (x : Nat) : Nat := rotr32 7 x ^^^ rotr32 18 x ^^^ (x >>> 3)

/-- FIPS 180-4 `σ1`. -/
def ssig1 (x : Nat) : Nat := rotr32 17 x ^^^ rotr32 19 x ^^^ (x >>> 10)

/-- The 64 SHA-256 round constants of FIPS 180-4 (the first 32 bits of the
fractional parts of the cube roots of the first 64 primes), in decimal. -/
def sha256K : List Nat :=
  [1116352408, 1899447441, 3049323471, 3921009573,
   961987163, 1508970993, 2453635748, 2870763221,
   3624381080, 310598401, 607225278, 1426881987,
   1925078388, 2162078206, 2614888103, 3248222580,
   3835390401, 4022224774, 264347078, 604807628,
   770255983, 1249150122, 1555081692, 1996064986,
   2554220882, 2821834349, 2952996808, 3210313671,
   3336571891, 3584528711, 113926993, 338241895,
   666307205, 773529912, 1294757372, 1396182291,
   1695183700, 1986661051, 2177026350, 2456956037,
   2730485921, 2820302411, 3259730800, 3345764771,
   3516065817, 3600352804, 4094571909, 275423344,
   430227734, 506948616, 659060556, 883997877,
   958139571, 1322822218, 1537002063, 1747873779,
   1955562222, 2024104815, 2227730452, 2361852424,
   2428436474, 2756734187, 3204031479, 3329325298]

/-- The eight working variables of the SHA-256 compression function. -/
structure HState where
  a : Nat
  b : Nat
  c : Nat
  d : Nat
  e : Nat
  f : Nat
  g : Nat
  h : Nat
deriving Repr, DecidableEq

/-- The SHA-256 initial hash value. -/
def sha256H0 : HState :=
  ⟨1779033703, 3144134277, 1013904242, 2773480762,
   1359893119, 2600822924, 528734635, 1541459225⟩

/-- The first 16 words of the message schedule: the block's 64 bytes read as
big-endian 32-bit words. -/
def msgWords (block : List Nat) : List Nat :=
  (List.range 16).map fun t => beWord32 (block.drop (4 * t))

/-- Extend 16 schedule words to 64: for `16 ≤ j`,
`W j = σ1 (W (j-2)) + W (j-7) + σ0 (W (j-15)) + W (j-16)` mod 2^32. -/
def schedule (ws : List Nat) : List Nat :=
  (List.range 48).foldl
    (fun acc t =>
      acc ++ [(ssig1 (acc.getD (t + 14) 0) + acc.getD (t + 9) 0 +
               ssig0 (acc.getD (t + 1) 0) + acc.getD t 0) % 2 ^ 32])
    ws

/-- One SHA-256 round on the eight working variables. -/
def roundStep (s : HState) (kw : Nat × Nat) : HState :=
  let t1 := (s.h + bsig1 s.e + ch32 s.e s.f s.g + kw.1 + kw.2) % 2 ^ 32
  let t2 := (bsig0 s.a + maj32 s.a s.b s.c) % 2 ^ 32
  ⟨(t1 + t2) % 2 ^ 32, s.a, s.b, s.c, (s.d + t1) % 2 ^ 32, s.e, s.f, s.g⟩

/-- The SHA-256 compression function on one 64-byte block. -/
def compress (s : HState) (block : List Nat) : HState :=
  let t := (sha256K.zip (schedule (msgWords block))).foldl roundStep s
  ⟨(s.a + t.a) % 2 ^ 32, (s.b + t.b) % 2 ^ 32, (s.c + t.c) % 2 ^ 32,
   (s.d + t.d) % 2 ^ 32, (s.e + t.e) % 2 ^ 32, (s.f + t.f) % 2 ^ 32,
   (s.g + t.g) % 2 ^ 32, (s.h + t.h) % 2 ^ 32⟩

/-- FIPS 180-4 padding: a `0x80` byte, zero bytes up to 56 mod 64, then the
bit length as a big-endian 64-bit integer. -/
def padMessage (msg : List Nat) : List Nat :=
  msg ++ [0x80] ++ List.replicate ((64 - (msg.length + 9) % 64) % 64) 0 ++
    putUint64BE (8 * msg.length)

/-- Fold the compression function over the 64-byte blocks of a padded
message.  Structural recursion on a fuel counter (one unit per block is
enough; `foldBlocks` passes the message length, which is never less than the
number of blocks) so that the function reduces inside the kernel. -/
def foldBlocksF : Nat → HState → List Nat → HState
  | 0, s, _ => s
  | _, s, [] => s
  | fuel + 1, s, msg => foldBlocksF fuel (compress s (msg.take 64)) (msg.drop 64)

/-- Fold the compression function over all 64-byte blocks of a padded
message. -/
def foldBlocks (s : HState) (msg : List Nat) : HState :=
  foldBlocksF msg.length s msg

/-- The 32 digest bytes of a final hash state, big-endian word by word. -/
def digestBytes (s : HState) : List Nat :=
  putUint32BE s.a ++ putUint32BE s.b ++ putUint32BE s.c ++ putUint32BE s.d ++
  putUint32BE s.e ++ putUint32BE s.f ++ putUint32BE s.g ++ putUint32BE s.h

/-- `sha256.Sum256`: the 32-byte SHA-256 digest of a byte sequence. -/
def sha256Bytes (msg : List Nat) : List Nat :=
  digestBytes (foldBlocks sha256H0 (padMessage msg))

/-! ## Lowercase hex encoding (`encoding/hex`) -/

/-- The lowercase hex digit for `n < 16`. -/
def hexDigit (n : Nat) : Char :=
  if n < 10 then Char.ofNat (48 + n) else Char.ofNat (87 + n)

/-- The two lowercase hex characters of one byte. -/
def hexByte (b : Nat) : List Char := [hexDigit (b >>> 4), hexDigit (b % 16)]

/-- `hex.EncodeToString`: lowercase hex encoding of a byte sequence. -/
def hexEncode (bs : List Nat) : String := ⟨(bs.map hexByte).flatten⟩

/-- `hashBuffer` from `src/main.go`: hex-encoded SHA-256 of a buffer. -/
def hashBuffer (data : List Nat) : String := hexEncode (sha256Bytes data)

/-- `sha256Hex` from `src/main.go`: identical body to `hashBuffer`. -/
def sha256Hex (data : List Nat) : String := hexEncode (sha256Bytes data)

/-! ## Image model

`image.Decode` is an external Go standard-library call, so it appears as an
explicit parameter of `computeHashes`.  A decoded image, after the
`draw.Draw` conversion to `image.NRGBA` at `src/main.go:123-124`, is a
width, a height, and the flat `Pix` slice: 4 bytes `R,G,B,A` per pixel in
row-major order with stride `4*width` (PNG-decoded images have their bounds
at the origin, so `Bounds().Min = (0,0)` and `PixOffset` carries no offset
correction). -/

/-- A decoded image in its `image.NRGBA` representation. -/
structure GoImage where
  width : Nat
  height : Nat
  pix : List Nat
deriving Repr, DecidableEq

/-- `NRGBA.PixOffset(x, y)` for a stride of `4*w`:
`y*Stride + x*4`. -/
def pixOffset (w x y : Nat) : Nat := y * (4 * w) + x * 4

/-- The body of the normalization loop at `src/main.go:128-134`: read the
alpha byte at `i+3` and, when it is 0, zero the three bytes `i`, `i+1`,
`i+2`.  (`List.getD _ _ 0` and `List.set` agree with the Go slice accesses
at every in-bounds index, and the loop below only produces in-bounds
indices when `pix` has length `4*width*height`.) -/
def zeroIfTransparent (p : List Nat) (i : Nat) : List Nat :=
  if p.getD (i + 3) 0 = 0 then ((p.set i 0).set (i + 1) 0).set (i + 2) 0 else p

/-- The nested loop at `src/main.go:126-135`: for each `y < h` and each
`x < w`, normalize the pixel at `pixOffset w x y`. -/
def alphaLoop (w h : Nat) (p : List Nat) : List Nat :=
  (List.range h).foldl
    (fun py y =>
      (List.range w).foldl (fun px x => zeroIfTransparent px (pixOffset w x y)) py)
    p

/-- Go's `strings.ToLower` (an external standard-library call), modelled as
the character-wise lowering of the string; this agrees with Go on the ASCII
format names `image.Decode` returns. -/
def stringToLower (s : String) : String := ⟨s.data.map Char.toLower⟩

/-- `HashResponse` from `src/main.go`. -/
structure HashResponse where
  standard : String
  alphaNormalized : String
  alphaNormalizedCompact : String
deriving Repr, DecidableEq

/-- The type of the external `image.Decode` call: bytes to a decoded image
(already in its NRGBA reading) together with the detected format name, or a
decode error. -/
abbrev DecodeFn := List Nat → Except String (GoImage × String)

/-- The type of the external `imaging.Encode(_, img, imaging.PNG)` call:
the canonical PNG re-encoding of a decoded image, or an encode error. -/
abbrev EncodeFn := GoImage → Except String (List Nat)

/-- `computeHashes` from `src/main.go:110-156`.  The two external library
calls (`image.Decode`, `imaging.Encode`) are passed in as `decode` and
`encode`; everything else follows the Go function line by line: decode,
reject non-PNG formats, copy to NRGBA and zero the RGB bytes of
fully-transparent pixels, hash the header-plus-pixels buffer, re-encode the
original decoded image and hash that, and return the triple with the
16-character truncation of the alpha hash. -/
def computeHashes (decode : DecodeFn) (encode : EncodeFn) (imgBytes : List Nat) :
    Except String HashResponse :=
  match decode imgBytes with
  | .error e => .error ("image decode failed: " ++ e)
  | .ok (img, format) =>
    if stringToLower format ≠ "png" then .error "only PNG images are supported"
    else
      let width := img.width
      let height := img.height
      let pix := alphaLoop width height img.pix
      let header := putUint32BE width ++ putUint32BE height
      let alphaBuffer := header ++ pix
      let alphaHash := hashBuffer alphaBuffer
      match encode img with
      | .error e => .error e
      | .ok encoded =>
        let standardHash := hashBuffer encoded
        .ok ⟨standardHash, alphaHash, ⟨alphaHash.data.take 16⟩⟩

/-! ## URL normalization and cache keys -/

/-- A parsed URL, the fields of `net/url`'s `URL` that this service
touches.  `url.Parse` is an external call, so a parsed URL (or the parse
error) arrives in the request environment below. -/
structure GoURL where
  scheme : String
  host : String
  path : String
  rawQuery : String
  fragment : String
deriving Repr, DecidableEq

/-- `net/url`'s `URL.String` for URLs made of scheme, host, path, query and
fragment: the query is printed after `?` and the fragment after `#`, each
only when non-empty. -/
def urlString (u : GoURL) : String :=
  u.scheme ++ "://" ++ u.host ++ u.path ++
    (if u.rawQuery = "" then "" else "?" ++ u.rawQuery) ++
    (if u.fragment = "" then "" else "#" ++ u.fragment)

/-- `normalizeURL` from `src/main.go:173-182` after a successful parse:
clear `RawQuery` and `Fragment`, then re-serialize. -/
def normalizeURL (u : GoURL) : String :=
  urlString { u with rawQuery := "", fragment := "" }

/-- The cache key of a URL source, `src/main.go:61`. -/
def urlCacheKey (u : GoURL) : String := "url:" ++ normalizeURL u

/-- The cache key of an uploaded source, `src/main.go:93`: SHA-256 of the
raw uploaded bytes, before any decoding. -/
def uploadCacheKey (bytes : List Nat) : String := "sha256:" ++ sha256Hex bytes

/-! ## The request handler and its cache -/

/-- The `sync.Map` cache, modelled as an association list; `Store`
overwrites, which the list models by shadowing on lookup. -/
abbrev Cache := List (String × HashResponse)

/-- `cache.Load`. -/
def cacheLoad (c : Cache) (k : String) : Option HashResponse :=
  (c.find? (fun e => e.1 == k)).map (·.2)

/-- `cache.Store`. -/
def cacheStore (c : Cache) (k : String) (v : HashResponse) : Cache :=
  (k, v) :: c

/-- The external effects of the URL branch of `handleHash`: the result of
`url.Parse`, the error of `http.Get` (`none` when the Go error is `nil`),
the response status code (meaningful when `getErr = none`), and the result
of `io.ReadAll` on the body. -/
structure URLEnv where
  parseResult : Except String GoURL
  getErr : Option String
  status : Nat
  readResult : Except String (List Nat)

/-- The external effects of the upload branch of `handleHash`: the error of
`r.FormFile` and the result of `io.ReadAll` on the file. -/
structure UploadEnv where
  formFileErr : Option String
  readResult : Except String (List Nat)

/-- A request source: a non-empty `url` query parameter, or an uploaded
file. -/
inductive Source where
  | fromURL (env : URLEnv)
  | upload (env : UploadEnv)

/-- What a handler invocation writes: an `http.Error` with status, error
and details strings, a JSON success body, or a Go panic (caught by
`recoverMiddleware`). -/
inductive Outcome where
  | httpError (status : Nat) (errMsg details : String)
  | json (resp : HashResponse)
  | panicked (details : String)
deriving Repr, DecidableEq

/-- The message of the Go panic raised by calling `err.Error()` on a `nil`
error at `src/main.go:69`. -/
def nilDerefMsg : String :=
  "runtime error: invalid memory address or nil pointer dereference"

/-- `src/main.go:100-107`: compute the hashes and, only on success, store
them under the derived cache key. -/
def finishHash (cacheKey : String) (skinBytes : List Nat) (decode : DecodeFn)
    (encode : EncodeFn) (cache : Cache) : Outcome × Cache :=
  match computeHashes decode encode skinBytes with
  | .error e => (.httpError 500 "Failed to compute hashes" e, cache)
  | .ok hashes => (.json hashes, cacheStore cache cacheKey hashes)

/-- `handleHash` from `src/main.go:48-108`, with the external effects of
one invocation supplied in `src`.  In the URL branch, note the Go bug at
`src/main.go:67-71`: when `http.Get` returns a `nil` error but a status
other than 200, the handler calls `err.Error()` on the `nil` error and
panics instead of writing the fetch-failure response. -/
def handleHash (src : Source) (decode : DecodeFn) (encode : EncodeFn)
    (cache : Cache) : Outcome × Cache :=
  match src with
  | .fromURL env =>
    match env.parseResult with
    | .error e => (.httpError 400 "Invalid URL" e, cache)
    | .ok parsed =>
      let cacheKey := urlCacheKey parsed
      match cacheLoad cache cacheKey with
      | some val => (.json val, cache)
      | none =>
        match env.getErr with
        | some e => (.httpError 400 "Failed to fetch image from URL" e, cache)
        | none =>
          if env.status ≠ 200 then (.panicked nilDerefMsg, cache)
          else
            match env.readResult with
            | .error e => (.httpError 500 "Failed to read image from URL" e, cache)
            | .ok skinBytes => finishHash cacheKey skinBytes decode encode cache
  | .upload env =>
    match env.formFileErr with
    | some e => (.httpError 400 "Failed to get uploaded file" e, cache)
    | none =>
      match env.readResult with
      | .error e => (.httpError 500 "Failed to read uploaded file" e, cache)
      | .ok skinBytes =>
        let cacheKey := uploadCacheKey skinBytes
        match cacheLoad cache cacheKey with
        | some val => (.json val, cache)
        | none => finishHash cacheKey skinBytes decode encode cache

/-- `recoverMiddleware` from `src/main.go:37-46`: a panic in the handler is
recovered and turned into a generic internal-server-error response; any
other outcome passes through. -/
def recoverMiddleware (out : Outcome) : Outcome :=
  match out with
  | .panicked details => .httpError 500 "Internal server error" details
  | o => o

/-! ## Spec-side definitions

These restate what the specification says in its own words, to be compared
with the source-side definitions above. -/

/-- Stated from the spec: the pixel buffer "in row-major order, 4 bytes per
pixel, with the invariant: for every pixel where `A == 0`, `R = G = B = 0`",
pixels "with any non-zero alpha are left untouched". -/
def normalizedPixels : List Nat → List Nat
  | r :: g :: b :: a :: rest =>
    (if a = 0 then [0, 0, 0, a] else [r, g, b, a]) ++ normalizedPixels rest
  | rest => rest

/-- A lowercase hex character: a decimal digit or one of `a`–`f`. -/
def isLowerHexChar (c : Char) : Bool :=
  (48 ≤ c.toNat && c.toNat ≤ 57) || (97 ≤ c.toNat && c.toNat ≤ 102)

/-- Well-formedness of a fingerprint result (claim C10): both full hashes
are 64-character lowercase hex strings and the compact hash is a
16-character lowercase hex string. -/
def wellFormedResult (r : HashResponse) : Prop :=
  r.standard.length = 64 ∧ (∀ c ∈ r.standard.data, isLowerHexChar c = true) ∧
  r.alphaNormalized.length = 64 ∧
  (∀ c ∈ r.alphaNormalized.data, isLowerHexChar c = true) ∧
  r.alphaNormalizedCompact.length = 16 ∧
  (∀ c ∈ r.alphaNormalizedCompact.data, isLowerHexChar c = true)

/-- Totality with well-formed outputs: every invocation is an error or a
well-formed result. -/
def exceptWF : Except String HashResponse → Prop
  | .error _ => True
  | .ok r => wellFormedResult r

/-! ## Concrete decode/encode environments for witnesses -/

/-- A 1×1 image: one fully transparent pixel whose RGB bytes carry junk. -/
def pngImage1 : GoImage := ⟨1, 1, [10, 20, 30, 0]⟩

/-- The same 1×1 image with the RGB bytes under the transparent pixel
zeroed. -/
def pngImage2 : GoImage := ⟨1, 1, [0, 0, 0, 0]⟩

/-- A 1×1 image with one opaque-ish pixel. -/
def pngImage3 : GoImage := ⟨1, 1, [5, 6, 7, 8]⟩

/-- A decode stub returning `pngImage1` as a PNG. -/
def decodePng1 : DecodeFn := fun _ => .ok (pngImage1, "png")

/-- A decode stub returning `pngImage2` as a PNG. -/
def decodePng2 : DecodeFn := fun _ => .ok (pngImage2, "png")

/-- A decode stub returning `pngImage3` as a PNG. -/
def decodePng3 : DecodeFn := fun _ => .ok (pngImage3, "png")

/-- A decode stub reporting a decodable image of a non-PNG format. -/
def decodeJpegEx : DecodeFn := fun _ => .ok (pngImage3, "jpeg")

/-- A decode stub reporting undecodable bytes. -/
def decodeErrEx : DecodeFn := fun _ => .error "not an image"

/-- A trivial deterministic encoder: the raw pixel bytes. -/
def encodePix : EncodeFn := fun img => .ok img.pix

/-- The result `computeHashes` returns for `img` under the `encodePix`
encoder; used by the concrete witnesses. -/
def resultOf (img : GoImage) : HashResponse :=
  ⟨hashBuffer img.pix,
   hashBuffer (putUint32BE img.width ++ putUint32BE img.height ++
     alphaLoop img.width img.height img.pix),
   ⟨(hashBuffer (putUint32BE img.width ++ putUint32BE img.height ++
     alphaLoop img.width img.height img.pix)).data.take 16⟩⟩

/-- The URL-branch environment of a request whose fetch comes back with a
`nil` error and a 404 status: the input that trips the bug at
`src/main.go:69`. -/
def urlEnvNon200 : URLEnv :=
  { parseResult := .ok ⟨"http", "x", "/a.png", "", ""⟩
    getErr := none
    status := 404
    readResult := .ok [] }

/-! ## Ground truth for the SHA-256 embedding: FIPS 180-4 test vectors -/

/-- The embedded SHA-256 hex digest of the empty message is the standard
test vector. -/
theorem sha256_empty_vector :
    hashBuffer [] =
      "e3b0c44298fc1c149afbf4c8996fb92427ae41e4649b934ca495991b7852b855" := by
  decide

/-- The embedded SHA-256 hex digest of `"abc"` is the standard test
vector. -/
theorem sha256_abc_vector :
    hashBuffer [97, 98, 99] =
      "ba7816bf8f01cfea414140de5dae2223b00361a396177a9cb410ff61f20015ad" := by
  decide

/-! ## Lemmas about the spec-side normalization -/

/-- `normalizedPixels` preserves length. -/
theorem normalizedPixels_length : ∀ l : List Nat, (normalizedPixels l).length = l.length
  | [] => rfl
  | [_] => rfl
  | [_, _] => rfl
  | [_, _, _] => rfl
  | r :: g :: b :: a :: rest => by
    simp only [normalizedPixels, List.length_append, normalizedPixels_length rest]
    by_cases ha : a = 0 <;> simp [ha] <;> omega

/-- `normalizedPixels` distributes over an append at a pixel boundary. -/
theorem normalizedPixels_append : ∀ l m : List Nat, l.length % 4 = 0 →
    normalizedPixels (l ++ m) = normalizedPixels l ++ normalizedPixels m
  | [], m, _ => by simp [normalizedPixels]
  | [_], _, h => by simp at h
  | [_, _], _, h => by simp at h
  | [_, _, _], _, h => by simp at h
  | r :: g :: b :: a :: rest, m, h => by
    have hr : rest.length % 4 = 0 := by
      simp only [List.length_cons] at h; omega
    simp only [List.cons_append, normalizedPixels, List.append_eq,
      normalizedPixels_append rest m hr, List.append_assoc]

/-- `normalizedPixels` is idempotent. -/
theorem normalizedPixels_idem : ∀ l : List Nat,
    normalizedPixels (normalizedPixels l) = normalizedPixels l
  | [] => rfl
  | [_] => rfl
  | [_, _] => rfl
  | [_, _, _] => rfl
  | r :: g :: b :: a :: rest => by
    by_cases ha : a = 0 <;>
      simp [normalizedPixels, ha, normalizedPixels_idem rest]

/-- Splitting a `take` at an intermediate point. -/
theorem take_add_split {α : Type} : ∀ (m n : Nat) (l : List α),
    l.take (m + n) = l.take m ++ (l.drop m).take n
  | 0, _, _ => by simp
  | _ + 1, _, [] => by simp
  | m + 1, n, x :: xs => by
    simp only [Nat.succ_add, List.take_succ_cons, List.drop_succ_cons,
      take_add_split m n xs, List.cons_append]

/-! ## The normalization loop equals the per-pixel map -/

/-- `zeroIfTransparent` preserves length. -/
theorem zeroIfTransparent_length (p : List Nat) (i : Nat) :
    (zeroIfTransparent p i).length = p.length := by
  unfold zeroIfTransparent
  split <;> simp

/-- `zeroIfTransparent` at an index past a prefix leaves the prefix alone. -/
theorem zeroIfTransparent_cons (x : Nat) (l : List Nat) (n : Nat) :
    zeroIfTransparent (x :: l) (n + 1) = x :: zeroIfTransparent l n := by
  have h3 : n + 1 + 3 = (n + 3) + 1 := by omega
  have h2 : n + 1 + 2 = (n + 2) + 1 := by omega
  unfold zeroIfTransparent
  rw [h3, h2, List.getD_cons_succ]
  by_cases hc : l.getD (n + 3) 0 = 0
  · rw [if_pos hc, if_pos hc]
    simp only [List.set_cons_succ]
  · rw [if_neg hc, if_neg hc]

/-- `zeroIfTransparent` localized past an arbitrary prefix. -/
theorem zeroIfTransparent_append_left (P Q : List Nat) (i : Nat) :
    zeroIfTransparent (P ++ Q) (P.length + i) = P ++ zeroIfTransparent Q i := by
  induction P with
  | nil => simp
  | cons p P ih =>
    have h : P.length + 1 + i = (P.length + i) + 1 := by omega
    simp only [List.cons_append, List.length_cons, h, zeroIfTransparent_cons, ih]

/-- `zeroIfTransparent` at the start of a prefix. -/
theorem zeroIfTransparent_at_len (P Q : List Nat) :
    zeroIfTransparent (P ++ Q) P.length = P ++ zeroIfTransparent Q 0 := by
  simpa using zeroIfTransparent_append_left P Q 0

/-- `zeroIfTransparent` on one leading pixel. -/
theorem zeroIfTransparent_zero (r g b a : Nat) (rest : List Nat) :
    zeroIfTransparent (r :: g :: b :: a :: rest) 0 =
      (if a = 0 then [0, 0, 0, a] else [r, g, b, a]) ++ rest := by
  by_cases ha : a = 0 <;> simp [zeroIfTransparent, ha]

/-- A list of length at least 4 starts with four explicit entries. -/
theorem exists_four_cons {α : Type} (l : List α) (h : 4 ≤ l.length) :
    ∃ r g b a rest, l = r :: g :: b :: a :: rest := by
  match l with
  | [] => simp at h
  | [_] => simp at h
  | [_, _] => simp at h
  | [_, _, _] => simp at h
  | r :: g :: b :: a :: rest => exact ⟨r, g, b, a, rest, rfl⟩

/-- One row of the normalization loop: folding `zeroIfTransparent` over the
offsets `base`, `base+4`, …, `base+4(n-1)` normalizes exactly the `4*n`
bytes starting at `base` and touches nothing else. -/
theorem rowLoop_eq (base : Nat) : ∀ (n : Nat) (q : List Nat),
    base + 4 * n ≤ q.length →
    (List.range n).foldl (fun p x => zeroIfTransparent p (base + 4 * x)) q =
      q.take base ++ normalizedPixels ((q.drop base).take (4 * n)) ++
        q.drop (base + 4 * n)
  | 0, q, _ => by simp [normalizedPixels]
  | n + 1, q, hlen => by
    have hbase : base ≤ q.length := by omega
    have hlen' : base + 4 * n ≤ q.length := by omega
    have e1 : 4 * (n + 1) = 4 * n + 4 := by omega
    have hdd : (q.drop base).drop (4 * n) = q.drop (base + 4 * n) := by
      rw [List.drop_drop]
    obtain ⟨r, g, b, a, rest, hD⟩ :=
      exists_four_cons (q.drop (base + 4 * n)) (by simp [List.length_drop]; omega)
    have hAN : (q.take base ++
        normalizedPixels ((q.drop base).take (4 * n))).length = base + 4 * n := by
      simp only [List.length_append, List.length_take, normalizedPixels_length,
        List.length_drop]
      omega
    have hT4 : ((q.drop base).take (4 * n)).length % 4 = 0 := by
      simp only [List.length_take, List.length_drop]
      omega
    have hrest : q.drop (base + 4 * (n + 1)) = rest := by
      have e2 : base + 4 * (n + 1) = (base + 4 * n) + 4 := by omega
      rw [e2, ← List.drop_drop, hD]
      rfl
    have htake : (q.drop base).take (4 * (n + 1)) =
        (q.drop base).take (4 * n) ++ [r, g, b, a] := by
      rw [e1, take_add_split, hdd, hD]
      rfl
    have hnp : normalizedPixels [r, g, b, a] =
        (if a = 0 then [0, 0, 0, a] else [r, g, b, a]) := by
      by_cases ha : a = 0 <;> simp [normalizedPixels, ha]
    rw [List.range_succ, List.foldl_append, rowLoop_eq base n q hlen']
    simp only [List.foldl_cons, List.foldl_nil]
    rw [hD, ← hAN, zeroIfTransparent_at_len, zeroIfTransparent_zero, htake,
      normalizedPixels_append _ _ hT4, hnp, hrest]
    simp [List.append_assoc]

/-- The full normalization loop of `computeHashes` equals the spec's
per-pixel map on the first `4*w*h` bytes and leaves any remaining bytes
unchanged. -/
theorem alphaLoop_eq (w : Nat) : ∀ (ht : Nat) (p : List Nat),
    4 * w * ht ≤ p.length →
    alphaLoop w ht p =
      normalizedPixels (p.take (4 * w * ht)) ++ p.drop (4 * w * ht)
  | 0, p, _ => by simp [alphaLoop, normalizedPixels]
  | ht + 1, p, hlen => by
    have e : 4 * w * (ht + 1) = 4 * w * ht + 4 * w := Nat.mul_succ (4 * w) ht
    have hlen' : 4 * w * ht ≤ p.length := by omega
    have step : alphaLoop w (ht + 1) p =
        (List.range w).foldl
          (fun px x => zeroIfTransparent px (pixOffset w x ht))
          (alphaLoop w ht p) := by
      unfold alphaLoop
      rw [List.range_succ, List.foldl_append]
      simp only [List.foldl_cons, List.foldl_nil]
    have hfun : (fun (px : List Nat) (x : Nat) =>
          zeroIfTransparent px (pixOffset w x ht)) =
        (fun px x => zeroIfTransparent px (4 * w * ht + 4 * x)) := by
      funext px x
      exact congrArg (zeroIfTransparent px) (by simp only [pixOffset]; ring)
    have hN : (normalizedPixels (p.take (4 * w * ht))).length = 4 * w * ht := by
      simp only [normalizedPixels_length, List.length_take]
      omega
    have hq : 4 * w * ht + 4 * w ≤
        (normalizedPixels (p.take (4 * w * ht)) ++ p.drop (4 * w * ht)).length := by
      simp only [List.length_append, hN, List.length_drop]
      omega
    have hmod : (p.take (4 * w * ht)).length % 4 = 0 := by
      rw [List.length_take, Nat.min_eq_left hlen', Nat.mul_assoc]
      exact Nat.mul_mod_right 4 (w * ht)
    rw [step, alphaLoop_eq w ht p hlen', hfun, rowLoop_eq _ _ _ hq,
      List.take_left' hN, List.drop_left' hN, ← List.drop_drop,
      List.drop_left' hN, List.drop_drop, e, take_add_split,
      normalizedPixels_append _ _ hmod]

/-- For a pixel buffer of exactly `4*w*h` bytes — what `draw.Draw` hands the
loop — the loop is the spec's per-pixel map. -/
theorem alphaLoop_eq_normalizedPixels (w ht : Nat) (p : List Nat)
    (hlen : p.length = 4 * w * ht) : alphaLoop w ht p = normalizedPixels p := by
  have h := alphaLoop_eq w ht p (le_of_eq hlen.symm)
  rwa [← hlen, List.take_length, List.drop_length, List.append_nil] at h

/-! ## Shape of the hash strings -/

/-- A digest is 32 bytes. -/
theorem sha256Bytes_length (msg : List Nat) : (sha256Bytes msg).length = 32 := by
  simp [sha256Bytes, digestBytes, putUint32BE]

/-- Every digest byte is below 256. -/
theorem sha256Bytes_lt (msg : List Nat) : ∀ x ∈ sha256Bytes msg, x < 256 := by
  simp only [sha256Bytes, digestBytes, putUint32BE, List.mem_append,
    List.mem_cons, List.not_mem_nil, or_false]
  omega

/-- Hex encoding doubles the length. -/
theorem hexEncode_length (bs : List Nat) : (hexEncode bs).length = 2 * bs.length := by
  induction bs with
  | nil => rfl
  | cons b bs ih =>
    simp only [hexEncode, String.length_mk] at ih ⊢
    simp only [List.map_cons, List.flatten_cons, List.length_append, ih, hexByte,
      List.length_cons, List.length_nil, List.length_cons]
    omega

/-- The hex digit of a value below 16 is a lowercase hex character. -/
theorem hexDigit_isLowerHex (n : Nat) (h : n < 16) :
    isLowerHexChar (hexDigit n) = true := by
  interval_cases n <;> decide

/-- Both hex characters of a byte are lowercase hex characters. -/
theorem hexByte_chars (b : Nat) (hb : b < 256) :
    ∀ c ∈ hexByte b, isLowerHexChar c = true := by
  intro c hc
  have hs : b >>> 4 = b / 2 ^ 4 := Nat.shiftRight_eq_div_pow b 4
  simp only [hexByte, List.mem_cons, List.not_mem_nil, or_false] at hc
  rcases hc with h1 | h1 <;> subst h1
  · exact hexDigit_isLowerHex _ (by omega)
  · exact hexDigit_isLowerHex _ (by omega)

/-- Hex encoding a list of bytes yields only lowercase hex characters. -/
theorem hexEncode_chars (bs : List Nat) (hb : ∀ b ∈ bs, b < 256) :
    ∀ c ∈ (hexEncode bs).data, isLowerHexChar c = true := by
  intro c hc
  have hc' : c ∈ (bs.map hexByte).flatten := hc
  rw [List.mem_flatten] at hc'
  obtain ⟨l, hl, hcl⟩ := hc'
  rw [List.mem_map] at hl
  obtain ⟨b, hbmem, rfl⟩ := hl
  exact hexByte_chars b (hb b hbmem) c hcl

/-- A `hashBuffer` result is 64 characters long. -/
theorem hashBuffer_length (data : List Nat) : (hashBuffer data).length = 64 := by
  rw [hashBuffer, hexEncode_length, sha256Bytes_length]

/-- A `hashBuffer` result is all lowercase hex. -/
theorem hashBuffer_chars (data : List Nat) :
    ∀ c ∈ (hashBuffer data).data, isLowerHexChar c = true :=
  hexEncode_chars _ (sha256Bytes_lt data)

/-! ## Computation and inversion lemmas for `computeHashes` -/

/-- On a successful decode with PNG format and a successful re-encode,
`computeHashes` returns exactly the triple built from the two hashes. -/
theorem computeHashes_ok (d : DecodeFn) (e : EncodeFn) (bytes : List Nat)
    (img : GoImage) (fmt : String) (enc : List Nat)
    (hdec : d bytes = .ok (img, fmt)) (hfmt : stringToLower fmt = "png")
    (henc : e img = .ok enc) :
    computeHashes d e bytes = .ok
      ⟨hashBuffer enc,
       hashBuffer (putUint32BE img.width ++ putUint32BE img.height ++
         alphaLoop img.width img.height img.pix),
       ⟨(hashBuffer (putUint32BE img.width ++ putUint32BE img.height ++
         alphaLoop img.width img.height img.pix)).data.take 16⟩⟩ := by
  simp [computeHashes, hdec, hfmt, henc]

/-- Inversion: a successful `computeHashes` run decodes to a PNG, re-encodes
successfully, and returns exactly the triple built from the two hashes. -/
theorem computeHashes_ok_inv (d : DecodeFn) (e : EncodeFn) (bytes : List Nat)
    (r : HashResponse) (h : computeHashes d e bytes = .ok r) :
    ∃ img fmt enc, d bytes = .ok (img, fmt) ∧ stringToLower fmt = "png" ∧
      e img = .ok enc ∧
      r = ⟨hashBuffer enc,
        hashBuffer (putUint32BE img.width ++ putUint32BE img.height ++
          alphaLoop img.width img.height img.pix),
        ⟨(hashBuffer (putUint32BE img.width ++ putUint32BE img.height ++
          alphaLoop img.width img.height img.pix)).data.take 16⟩⟩ := by
  unfold computeHashes at h
  cases hd : d bytes with
  | error msg => rw [hd] at h; simp at h
  | ok p =>
    obtain ⟨img, fmt⟩ := p
    rw [hd] at h
    by_cases hfmt : stringToLower fmt = "png"
    · simp only [hfmt, ne_eq, not_true_eq_false, if_false] at h
      cases he : e img with
      | error msg => rw [he] at h; simp at h
      | ok enc =>
        rw [he] at h
        simp only [Except.ok.injEq] at h
        exact ⟨img, fmt, enc, rfl, hfmt, he, h.symm⟩
    · simp [hfmt] at h

/-! ## The claims -/

/-- C1: for every successfully decoded PNG image, the buffer hashed to
produce `alpha_normalized_hash` is exactly the 8-byte big-endian header
(width then height as `uint32`) followed by the 4-byte-per-pixel RGBA data
in row-major order, in which every pixel with alpha 0 has its R, G, B
bytes set to 0 and every pixel with non-zero alpha keeps its decoded
R, G, B, A bytes unchanged (`normalizedPixels` states exactly that
per-pixel map in the spec's words). -/
theorem c1_alpha_buffer_is_header_plus_normalized (d : DecodeFn) (e : EncodeFn)
    (bytes enc : List Nat) (img : GoImage) (fmt : String)
    (hdec : d bytes = .ok (img, fmt)) (hfmt : stringToLower fmt = "png")
    (henc : e img = .ok enc)
    (hlen : img.pix.length = 4 * img.width * img.height) :
    computeHashes d e bytes = .ok
      ⟨hashBuffer enc,
       hashBuffer (putUint32BE img.width ++ putUint32BE img.height ++
         normalizedPixels img.pix),
       ⟨(hashBuffer (putUint32BE img.width ++ putUint32BE img.height ++
         normalizedPixels img.pix)).data.take 16⟩⟩ := by
  rw [computeHashes_ok d e bytes img fmt enc hdec hfmt henc,
    alphaLoop_eq_normalizedPixels img.width img.height img.pix hlen]

/-- Witness for C1 at a concrete 1×1 image whose transparent pixel carries
junk RGB bytes. -/
theorem c1_witness :
    computeHashes decodePng1 encodePix [] = .ok
      ⟨hashBuffer [10, 20, 30, 0],
       hashBuffer (putUint32BE 1 ++ putUint32BE 1 ++
         normalizedPixels [10, 20, 30, 0]),
       ⟨(hashBuffer (putUint32BE 1 ++ putUint32BE 1 ++
         normalizedPixels [10, 20, 30, 0])).data.take 16⟩⟩ :=
  c1_alpha_buffer_is_header_plus_normalized decodePng1 encodePix [] [10, 20, 30, 0]
    pngImage1 "png" rfl (by decide) rfl (by decide)

/-- C2: two PNG images of equal dimensions, identical except that the RGB
bytes under fully-transparent pixels are arbitrary in one and zeroed in the
other, receive the same `alpha_normalized_hash`.  (Their `standard_hash`
values are hashes of the two separate re-encodings and are not constrained
to be equal.) -/
theorem c2_alpha_hash_ignores_rgb_under_transparency
    (d1 d2 : DecodeFn) (e1 e2 : EncodeFn) (b1 b2 enc1 enc2 : List Nat)
    (img1 img2 : GoImage) (fmt1 fmt2 : String) (r1 r2 : HashResponse)
    (hdec1 : d1 b1 = .ok (img1, fmt1)) (hfmt1 : stringToLower fmt1 = "png")
    (henc1 : e1 img1 = .ok enc1)
    (hdec2 : d2 b2 = .ok (img2, fmt2)) (hfmt2 : stringToLower fmt2 = "png")
    (henc2 : e2 img2 = .ok enc2)
    (hw : img2.width = img1.width) (hh : img2.height = img1.height)
    (hpix : img2.pix = normalizedPixels img1.pix)
    (hlen : img1.pix.length = 4 * img1.width * img1.height)
    (h1 : computeHashes d1 e1 b1 = .ok r1)
    (h2 : computeHashes d2 e2 b2 = .ok r2) :
    r1.alphaNormalized = r2.alphaNormalized := by
  have hlen2 : img2.pix.length = 4 * img2.width * img2.height := by
    rw [hpix, normalizedPixels_length, hw, hh]
    exact hlen
  rw [computeHashes_ok d1 e1 b1 img1 fmt1 enc1 hdec1 hfmt1 henc1,
    alphaLoop_eq_normalizedPixels img1.width img1.height img1.pix hlen] at h1
  rw [computeHashes_ok d2 e2 b2 img2 fmt2 enc2 hdec2 hfmt2 henc2,
    alphaLoop_eq_normalizedPixels img2.width img2.height img2.pix hlen2] at h2
  simp only [Except.ok.injEq] at h1 h2
  subst h1
  subst h2
  simp [hpix, normalizedPixels_idem, hw, hh]

/-- Witness for C2: the junk-RGB transparent image and its zeroed
counterpart share their alpha-normalized hash. -/
theorem c2_witness :
    (resultOf pngImage1).alphaNormalized = (resultOf pngImage2).alphaNormalized :=
  c2_alpha_hash_ignores_rgb_under_transparency decodePng1 decodePng2
    encodePix encodePix [] [] pngImage1.pix pngImage2.pix pngImage1 pngImage2
    "png" "png" (resultOf pngImage1) (resultOf pngImage2)
    rfl (by decide) rfl rfl (by decide) rfl rfl rfl (by decide) (by decide)
    (computeHashes_ok decodePng1 encodePix [] pngImage1 "png" pngImage1.pix
      rfl (by decide) rfl)
    (computeHashes_ok decodePng2 encodePix [] pngImage2 "png" pngImage2.pix
      rfl (by decide) rfl)

/-- C3: `standard_hash` is the hex SHA-256 of the canonical PNG re-encoding
of the original decoded image `img` — the alpha-zeroing happens on the
separate NRGBA copy and the bytes handed to the encoder, hence
`standard_hash`, depend only on `img` and the encoder. -/
theorem c3_standard_hash_from_original_encoding (d : DecodeFn) (e : EncodeFn)
    (bytes enc : List Nat) (img : GoImage) (fmt : String) (r : HashResponse)
    (hdec : d bytes = .ok (img, fmt)) (hfmt : stringToLower fmt = "png")
    (henc : e img = .ok enc)
    (h : computeHashes d e bytes = .ok r) :
    r.standard = hashBuffer enc := by
  rw [computeHashes_ok d e bytes img fmt enc hdec hfmt henc] at h
  simp only [Except.ok.injEq] at h
  subst h
  rfl

/-- Witness for C3 at a concrete image. -/
theorem c3_witness : (resultOf pngImage3).standard = hashBuffer [5, 6, 7, 8] :=
  c3_standard_hash_from_original_encoding decodePng3 encodePix []
    [5, 6, 7, 8] pngImage3 "png" (resultOf pngImage3) rfl (by decide) rfl
    (computeHashes_ok decodePng3 encodePix [] pngImage3 "png" pngImage3.pix
      rfl (by decide) rfl)

/-- C4: `computeHashes` errors whenever the bytes fail to decode, errors
whenever they decode to a format other than PNG, and every success comes
from bytes that decoded as PNG. -/
theorem c4_only_png_yields_result (d : DecodeFn) (e : EncodeFn)
    (bytes : List Nat) :
    (∀ msg, d bytes = .error msg →
      computeHashes d e bytes = .error ("image decode failed: " ++ msg)) ∧
    (∀ img fmt, d bytes = .ok (img, fmt) → stringToLower fmt ≠ "png" →
      computeHashes d e bytes = .error "only PNG images are supported") ∧
    (∀ r, computeHashes d e bytes = .ok r →
      ∃ img fmt, d bytes = .ok (img, fmt) ∧ stringToLower fmt = "png") := by
  refine ⟨?_, ?_, ?_⟩
  · intro msg hmsg
    simp [computeHashes, hmsg]
  · intro img fmt hd hfmt
    simp [computeHashes, hd, hfmt]
  · intro r h
    obtain ⟨img, fmt, enc, hd, hfmt, -, -⟩ := computeHashes_ok_inv d e bytes r h
    exact ⟨img, fmt, hd, hfmt⟩

/-- Witness for C4: undecodable bytes error, and a valid non-PNG (JPEG)
decode errors. -/
theorem c4_witness :
    computeHashes decodeErrEx encodePix [] =
      .error ("image decode failed: " ++ "not an image") ∧
    computeHashes decodeJpegEx encodePix [] =
      .error "only PNG images are supported" :=
  ⟨(c4_only_png_yields_result decodeErrEx encodePix []).1 "not an image" rfl,
   (c4_only_png_yields_result decodeJpegEx encodePix []).2.1 pngImage3 "jpeg"
     rfl (by decide)⟩

/-- C5: the cache key of a URL source is `"url:"` plus the URL
re-serialized with query string and fragment stripped, and the cache key of
an upload is `"sha256:"` plus the hex SHA-256 of the raw bytes; hence URLs
differing only in query/fragment share a key (in particular the spec's
example pair), and byte-identical uploads share a key. -/
theorem c5_cache_key_derivation :
    (∀ u : GoURL, urlCacheKey u = "url:" ++ normalizeURL u) ∧
    (∀ bytes : List Nat, uploadCacheKey bytes = "sha256:" ++ sha256Hex bytes) ∧
    (∀ s hst p q1 f1 q2 f2,
      urlCacheKey ⟨s, hst, p, q1, f1⟩ = urlCacheKey ⟨s, hst, p, q2, f2⟩) ∧
    (∀ b1 b2 : List Nat, b1 = b2 → uploadCacheKey b1 = uploadCacheKey b2) ∧
    urlCacheKey ⟨"http", "x", "/img.png", "a=1", "frag"⟩ = "url:http://x/img.png" ∧
    urlCacheKey ⟨"http", "x", "/img.png", "b=2", ""⟩ = "url:http://x/img.png" := by
  refine ⟨fun _ => rfl, fun _ => rfl, fun _ _ _ _ _ _ _ => rfl,
    fun b1 b2 hb => by rw [hb], ?_, ?_⟩ <;> decide

/-- Witness for C5: the congruence conjunct applied to a concrete pair of
byte-identical uploads. -/
theorem c5_witness : uploadCacheKey [1, 2, 3] = uploadCacheKey [1, 2, 3] :=
  c5_cache_key_derivation.2.2.2.1 [1, 2, 3] [1, 2, 3] rfl

/-- C6: on every path of `handleHash` the cache is left unchanged, except
that a cache-miss whose fingerprint computation fully succeeds stores
exactly that successful result under the derived key and answers with it —
no key is ever bound to a partial or error result. -/
theorem c6_cache_unchanged_unless_success (src : Source) (d : DecodeFn)
    (e : EncodeFn) (cache : Cache) :
    (handleHash src d e cache).2 = cache ∨
    ∃ k r bytes, (handleHash src d e cache).1 = .json r ∧
      computeHashes d e bytes = .ok r ∧
      (handleHash src d e cache).2 = cacheStore cache k r := by
  cases src with
  | fromURL env =>
    cases hp : env.parseResult with
    | error msg => left; simp [handleHash, hp]
    | ok parsed =>
      cases hl : cacheLoad cache (urlCacheKey parsed) with
      | some val => left; simp [handleHash, hp, hl]
      | none =>
        cases hg : env.getErr with
        | some msg => left; simp [handleHash, hp, hl, hg]
        | none =>
          by_cases hs : env.status = 200
          · cases hr : env.readResult with
            | error msg => left; simp [handleHash, hp, hl, hg, hr, hs]
            | ok bytes =>
              cases hc : computeHashes d e bytes with
              | error msg =>
                left; simp [handleHash, finishHash, hp, hl, hg, hr, hs, hc]
              | ok res =>
                right
                exact ⟨urlCacheKey parsed, res, bytes,
                  by simp [handleHash, finishHash, hp, hl, hg, hr, hs, hc], hc,
                  by simp [handleHash, finishHash, hp, hl, hg, hr, hs, hc]⟩
          · left; simp [handleHash, hp, hl, hg, hs]
  | upload env =>
    cases hf : env.formFileErr with
    | some msg => left; simp [handleHash, hf]
    | none =>
      cases hr : env.readResult with
      | error msg => left; simp [handleHash, hf, hr]
      | ok bytes =>
        cases hl : cacheLoad cache (uploadCacheKey bytes) with
        | some val => left; simp [handleHash, hf, hr, hl]
        | none =>
          cases hc : computeHashes d e bytes with
          | error msg => left; simp [handleHash, finishHash, hf, hr, hl, hc]
          | ok res =>
            right
            exact ⟨uploadCacheKey bytes, res, bytes,
              by simp [handleHash, finishHash, hf, hr, hl, hc], hc,
              by simp [handleHash, finishHash, hf, hr, hl, hc]⟩

/-- C7 (theorem at the failing input): a URL fetch that completes with a
`nil` Go error but status 404 makes `handleHash` panic on `err.Error()`
(`src/main.go:69`), and the recover middleware turns that into the generic
internal-server-error response — not the fetch-failure response the claim
requires. -/
theorem c7_non200_panics_to_internal_error :
    (handleHash (.fromURL urlEnvNon200) decodeErrEx encodePix []).1 =
      .panicked nilDerefMsg ∧
    recoverMiddleware
        (handleHash (.fromURL urlEnvNon200) decodeErrEx encodePix []).1 =
      .httpError 500 "Internal server error" nilDerefMsg ∧
    (handleHash (.fromURL urlEnvNon200) decodeErrEx encodePix []).1 ≠
      .httpError 400 "Failed to fetch image from URL" nilDerefMsg := by
  refine ⟨rfl, rfl, ?_⟩
  decide

/-- C8: the fingerprint computation is deterministic — two invocations on
the same bytes (with the same decode and encode environment) yield results
with equal `standard_hash`, `alpha_normalized_hash` and
`alpha_normalized_compact`. -/
theorem c8_deterministic (d : DecodeFn) (e : EncodeFn) (bytes : List Nat)
    (r1 r2 : HashResponse)
    (h1 : computeHashes d e bytes = .ok r1)
    (h2 : computeHashes d e bytes = .ok r2) :
    r1.standard = r2.standard ∧
    r1.alphaNormalized = r2.alphaNormalized ∧
    r1.alphaNormalizedCompact = r2.alphaNormalizedCompact := by
  rw [h1] at h2
  simp only [Except.ok.injEq] at h2
  rw [h2]
  exact ⟨rfl, rfl, rfl⟩

/-- Witness for C8 at a concrete image. -/
theorem c8_witness :
    (resultOf pngImage3).standard = (resultOf pngImage3).standard ∧
    (resultOf pngImage3).alphaNormalized = (resultOf pngImage3).alphaNormalized ∧
    (resultOf pngImage3).alphaNormalizedCompact =
      (resultOf pngImage3).alphaNormalizedCompact :=
  c8_deterministic decodePng3 encodePix [] (resultOf pngImage3)
    (resultOf pngImage3)
    (computeHashes_ok decodePng3 encodePix [] pngImage3 "png" pngImage3.pix
      rfl (by decide) rfl)
    (computeHashes_ok decodePng3 encodePix [] pngImage3 "png" pngImage3.pix
      rfl (by decide) rfl)

/-- C9: in every successful result, `alpha_normalized_compact` is exactly
the first 16 characters of `alpha_normalized_hash`. -/
theorem c9_compact_is_first_16 (d : DecodeFn) (e : EncodeFn)
    (bytes : List Nat) (r : HashResponse)
    (h : computeHashes d e bytes = .ok r) :
    r.alphaNormalizedCompact = ⟨r.alphaNormalized.data.take 16⟩ := by
  obtain ⟨img, fmt, enc, -, -, -, rfl⟩ := computeHashes_ok_inv d e bytes r h
  rfl

/-- Witness for C9 at a concrete image. -/
theorem c9_witness :
    (resultOf pngImage1).alphaNormalizedCompact =
      ⟨(resultOf pngImage1).alphaNormalized.data.take 16⟩ :=
  c9_compact_is_first_16 decodePng1 encodePix [] (resultOf pngImage1)
    (computeHashes_ok decodePng1 encodePix [] pngImage1 "png" pngImage1.pix
      rfl (by decide) rfl)

/-- C10: the fingerprint computation is total with well-formed outputs —
every invocation returns an error or a result whose two full hashes are
64-character lowercase hex strings and whose compact hash is a 16-character
lowercase hex string (so the 16-character truncation is always in
bounds). -/
theorem c10_total_wellformed (d : DecodeFn) (e : EncodeFn) (bytes : List Nat) :
    exceptWF (computeHashes d e bytes) := by
  cases h : computeHashes d e bytes with
  | error msg => trivial
  | ok r =>
    obtain ⟨img, fmt, enc, -, -, -, rfl⟩ := computeHashes_ok_inv d e bytes r h
    have hdata : ∀ buf : List Nat, (hashBuffer buf).data.length = 64 :=
      fun buf => hashBuffer_length buf
    refine ⟨hashBuffer_length _, hashBuffer_chars _, hashBuffer_length _,
      hashBuffer_chars _, ?_, ?_⟩
    · show (List.take 16 (hashBuffer _).data).length = 16
      rw [List.length_take, hdata]
      decide
    · intro c hc
      exact hashBuffer_chars _ c (List.take_subset _ _ hc)

end NamemcHash
